import Mathlib

/-!
Shallow embedding of the MwUtil geometry and number types
(Vector2, Vector3, the generic Vector, Bounds, Bounds2, Bounds3, Plane,
Rational) with the scalar type T instantiated at the real numbers
(the idealisation of float and double) and, for Rational, at the integers.

Conventions of the embedding:
- a C++ method that can throw or that guards its body with an assertion is
  modelled as an Option-valued function, none being the rejection path;
- in-place mutators and their pure getXxx counterparts compute the same
  value, so only one function is defined per operation;
- C++ integer division truncates toward zero, hence Int.tdiv;
- the bodies follow the source files statement by statement, including the
  places where the source visibly deviates from its own documentation.
-/

namespace Mw

/-- 2-dimensional vector over the reals, from Vector2.hpp. -/
@[ext] structure Vector2 where
  x : ℝ
  y : ℝ


/-- A vector is null if all its components are 0 (Vector2::isNull). -/
def Vector2.isNull (v : Vector2) : Prop := v.x = 0 ∧ v.y = 0

noncomputable instance (v : Vector2) : Decidable v.isNull :=
  inferInstanceAs (Decidable (v.x = 0 ∧ v.y = 0))

/-- Vector2::getLength, the square root of x*x + y*y. -/
noncomputable def Vector2.getLength (v : Vector2) : ℝ :=
  Real.sqrt (v.x * v.x + v.y * v.y)

/-- Vector2::dot. -/
def Vector2.dot (v w : Vector2) : ℝ := v.x * w.x + v.y * w.y

/-- Vector2::operator*= with a scalar (component-wise). -/
def Vector2.mulScalar (v : Vector2) (f : ℝ) : Vector2 := ⟨v.x * f, v.y * f⟩

/-- Vector2::operator-= (component-wise difference). -/
def Vector2.sub (v w : Vector2) : Vector2 := ⟨v.x - w.x, v.y - w.y⟩

/-- Vector2::operator/= of the first Vector2.hpp variant: throws
std::invalid_argument when the divisor is exactly zero. -/
noncomputable def Vector2.divScalar (v : Vector2) (f : ℝ) : Option Vector2 :=
  if f = 0 then none else some ⟨v.x / f, v.y / f⟩

/-- Vector2::operator/= of the second Vector2.hpp variant: the body is only
the two component divisions, with a TODO DBZ comment and no check of any
kind, so every call returns normally. -/
noncomputable def Vector2.divScalarTodo (v : Vector2) (f : ℝ) : Option Vector2 :=
  some ⟨v.x / f, v.y / f⟩

/-- Vector2::getNormalization: rejects the null vector, otherwise divides
both components by the length. -/
noncomputable def Vector2.getNormalization (v : Vector2) : Option Vector2 :=
  if v.isNull then none
  else some ⟨v.x / v.getLength, v.y / v.getLength⟩

/-- Vector2::getProjection: rejects a null target, otherwise scales the
target by dot(this, vec) / (length * length). -/
noncomputable def Vector2.getProjection (a vec : Vector2) : Option Vector2 :=
  if vec.isNull then none
  else some ⟨a.dot vec / (vec.getLength * vec.getLength) * vec.x,
             a.dot vec / (vec.getLength * vec.getLength) * vec.y⟩

/-- Vector2::getScalarProjection: dot product with the normalization of the
target (and it inherits the target's null-vector rejection). -/
noncomputable def Vector2.getScalarProjection (a vec : Vector2) : Option ℝ :=
  vec.getNormalization.map (fun u => a.dot u)

/-- 3-dimensional vector over the reals, from Vector3.hpp. -/
@[ext] structure Vector3 where
  x : ℝ
  y : ℝ
  z : ℝ


/-- Vector3::isNull. -/
def Vector3.isNull (v : Vector3) : Prop := v.x = 0 ∧ v.y = 0 ∧ v.z = 0

noncomputable instance (v : Vector3) : Decidable v.isNull :=
  inferInstanceAs (Decidable (v.x = 0 ∧ v.y = 0 ∧ v.z = 0))

/-- Vector3::getLength. -/
noncomputable def Vector3.getLength (v : Vector3) : ℝ :=
  Real.sqrt (v.x * v.x + v.y * v.y + v.z * v.z)

/-- Vector3::dot. -/
def Vector3.dot (v w : Vector3) : ℝ := v.x * w.x + v.y * w.y + v.z * w.z

/-- Vector3::operator/=: the body is guarded by BOOST_ASSERT(f), modelled
as the rejection path when f is zero. -/
noncomputable def Vector3.divScalar (v : Vector3) (f : ℝ) : Option Vector3 :=
  if f = 0 then none else some ⟨v.x / f, v.y / f, v.z / f⟩

/-- Vector3::getNormalization, guarded by BOOST_ASSERT(!isNull()). -/
noncomputable def Vector3.getNormalization (v : Vector3) : Option Vector3 :=
  if v.isNull then none
  else some ⟨v.x / v.getLength, v.y / v.getLength, v.z / v.getLength⟩

/-- The generic Vector<T, N> of Vector.hpp keeps its components in an array;
its getLength accumulates get<i>() ^ 2, and in C++ the caret is bitwise
exclusive or, an operation that only exists for the integral instantiations
of T. The component list of such an instantiation (T unsigned). -/
def GenVector : Type := List ℕ

/-- Vector::getLength of the generic Vector.hpp class: the accumulator adds
get<i>() ^ 2, the C++ exclusive or of the component with 2, and the square
root of the accumulator is returned. -/
noncomputable def GenVector.getLength (v : GenVector) : ℝ :=
  Real.sqrt ((List.foldl (fun len c => len + (c ^^^ 2)) (0 : ℕ) v : ℕ) : ℝ)

/-- The Euclidean norm the specification describes for getLength: the square
root of the sum of the squared components. Stated from the spec's words to
compare with GenVector.getLength above. -/
noncomputable def GenVector.euclideanNorm (v : GenVector) : ℝ :=
  Real.sqrt ((List.foldl (fun len c => len + c * c) (0 : ℕ) v : ℕ) : ℝ)

/-- Point of the generic Bounds<T, N> of Bounds.hpp: N real components. -/
abbrev VecN (n : ℕ) : Type := Fin n → ℝ

/-- The generic Bounds<T, N, V> of Bounds.hpp: an upper and a lower limit. -/
@[ext] structure Bounds (n : ℕ) where
  upper : VecN n
  lower : VecN n

namespace Bounds

/-- Bounds::set: per axis the greater coordinate becomes the upper limit and
the other one the lower limit. -/
noncomputable def set {n : ℕ} (first second : VecN n) : Bounds n where
  upper := fun i => if first i > second i then first i else second i
  lower := fun i => if first i > second i then second i else first i

/-- Bounds::isEmpty: some axis has upper limit at most the lower limit. -/
def isEmpty {n : ℕ} (b : Bounds n) : Prop := ∃ i, b.upper i ≤ b.lower i

/-- Bounds::intersect: per axis, take the other upper limit when it is
smaller and the other lower limit when it is greater. -/
noncomputable def intersect {n : ℕ} (a b : Bounds n) : Bounds n where
  upper := fun i => if b.upper i < a.upper i then b.upper i else a.upper i
  lower := fun i => if b.lower i > a.lower i then b.lower i else a.lower i

/-- Bounds::hasPointInside: the loop returns false as soon as some axis has
the point above the upper limit or below the lower limit. -/
def hasPointInside {n : ℕ} (b : Bounds n) (p : VecN n) : Prop :=
  ∀ i, ¬(p i > b.upper i ∨ p i < b.lower i)

/-- Bounds::hasBoundsInside: the loop returns false only when, on a single
axis, the other upper limit exceeds ours and at the same time the other
lower limit is below ours (the source combines the two comparisons with a
logical and). -/
def hasBoundsInside {n : ℕ} (a b : Bounds n) : Prop :=
  ∀ i, ¬(b.upper i > a.upper i ∧ b.lower i < a.lower i)

end Bounds

/-- Bounds2 of Bounds2.hpp over T = ℝ. -/
@[ext] structure Bounds2 where
  upper : Vector2
  lower : Vector2

/-- Bounds2::set: axis-wise comparison of the two corner points. -/
noncomputable def Bounds2.set (first second : Vector2) : Bounds2 where
  upper := ⟨if first.x > second.x then first.x else second.x,
            if first.y > second.y then first.y else second.y⟩
  lower := ⟨if first.x > second.x then second.x else first.x,
            if first.y > second.y then second.y else first.y⟩

/-- Bounds3 of the Bounds3.hpp section of Vector.hpp over T = ℝ. -/
@[ext] structure Bounds3 where
  upper : Vector3
  lower : Vector3

namespace Bounds3

/-- Bounds3::set handles all three axes. -/
noncomputable def set (first second : Vector3) : Bounds3 where
  upper := ⟨if first.x > second.x then first.x else second.x,
            if first.y > second.y then first.y else second.y,
            if first.z > second.z then first.z else second.z⟩
  lower := ⟨if first.x > second.x then second.x else first.x,
            if first.y > second.y then second.y else first.y,
            if first.z > second.z then second.z else first.z⟩

/-- Bounds3::isEmpty checks all three axes. -/
def isEmpty (b : Bounds3) : Prop :=
  b.upper.x ≤ b.lower.x ∨ b.upper.y ≤ b.lower.y ∨ b.upper.z ≤ b.lower.z

/-- Bounds3::intersect: the source body only compares and updates the X and
Y coordinates of the two limits; the Z coordinates are left as they were. -/
noncomputable def intersect (a b : Bounds3) : Bounds3 where
  upper := ⟨if b.upper.x < a.upper.x then b.upper.x else a.upper.x,
            if b.upper.y < a.upper.y then b.upper.y else a.upper.y,
            a.upper.z⟩
  lower := ⟨if b.lower.x > a.lower.x then b.lower.x else a.lower.x,
            if b.lower.y > a.lower.y then b.lower.y else a.lower.y,
            a.lower.z⟩

/-- Bounds3::isInside for a point: the source compares only the X and Y
coordinates of the point against the limits. -/
def isInside (a : Bounds3) (v : Vector3) : Prop :=
  v.x ≤ a.upper.x ∧ v.y ≤ a.upper.y ∧ v.x ≥ a.lower.x ∧ v.y ≥ a.lower.y

end Bounds3

/-- Rational<T> of Rational.hpp over T = ℤ. -/
@[ext] structure Rational where
  numerator : ℤ
  denominator : ℤ
deriving DecidableEq

/-- The loop of Rational::computeGcd after both arguments have been replaced
by their absolute values: while a is nonzero, return a when b is zero and
otherwise replace the pair (a, b) by (b, a mod b); when a is zero return b. -/
def gcdLoop : ℕ → ℕ → ℕ
  | 0, b => b
  | (a + 1), b => if h : b = 0 then a + 1 else gcdLoop b ((a + 1) % b)
termination_by _a b => b
decreasing_by
  exact Nat.mod_lt _ (Nat.pos_of_ne_zero h)

/-- Rational::computeGcd: both arguments replaced by their absolute values,
then the Euclidean loop. -/
def computeGcd (a b : ℤ) : ℤ := ↑(gcdLoop a.natAbs b.natAbs)

namespace Rational

/-- Rational::normalize: flip both signs when the denominator is negative,
then divide numerator and denominator by their gcd. -/
def normalize (r : Rational) : Rational :=
  if r.denominator < 0 then
    ⟨(-r.numerator).tdiv (computeGcd (-r.numerator) (-r.denominator)),
     (-r.denominator).tdiv (computeGcd (-r.numerator) (-r.denominator))⟩
  else
    ⟨r.numerator.tdiv (computeGcd r.numerator r.denominator),
     r.denominator.tdiv (computeGcd r.numerator r.denominator)⟩

/-- Rational's two-argument constructor: BOOST_ASSERT(denominator), then
normalize. -/
def ofFraction (numerator denominator : ℤ) : Option Rational :=
  if denominator = 0 then none else some (normalize ⟨numerator, denominator⟩)

/-- Rational::set: BOOST_ASSERT(denominator), assign both fields, normalize. -/
def set (_ : Rational) (numerator denominator : ℤ) : Option Rational :=
  if denominator = 0 then none else some (normalize ⟨numerator, denominator⟩)

/-- Rational::setNumerator: assign the numerator, then normalize. -/
def setNumerator (r : Rational) (numerator : ℤ) : Rational :=
  normalize ⟨numerator, r.denominator⟩

/-- Rational::setDenominator: BOOST_ASSERT(denominator), assign, normalize. -/
def setDenominator (r : Rational) (denominator : ℤ) : Option Rational :=
  if denominator = 0 then none else some (normalize ⟨r.numerator, denominator⟩)

/-- Rational::operator+=: the gcd-based addition of the source, which does
not call normalize. -/
def add (r s : Rational) : Rational :=
  let g1 := computeGcd r.denominator s.denominator
  if g1 = 1 then
    ⟨r.numerator * s.denominator + r.denominator * s.numerator,
     r.denominator * s.denominator⟩
  else
    let t := r.numerator * (s.denominator.tdiv g1)
           + (r.denominator.tdiv g1) * s.numerator
    let g2 := computeGcd t g1
    ⟨t.tdiv g2, (r.denominator.tdiv g1) * (s.denominator.tdiv g2)⟩

/-- Rational::operator-=: same structure as operator+= with a difference in
the numerator. -/
def sub (r s : Rational) : Rational :=
  let g1 := computeGcd r.denominator s.denominator
  if g1 = 1 then
    ⟨r.numerator * s.denominator - r.denominator * s.numerator,
     r.denominator * s.denominator⟩
  else
    let t := r.numerator * (s.denominator.tdiv g1)
           - (r.denominator.tdiv g1) * s.numerator
    let g2 := computeGcd t g1
    ⟨t.tdiv g2, (r.denominator.tdiv g1) * (s.denominator.tdiv g2)⟩

/-- Rational::operator*=: cross-reduced multiplication. -/
def mul (r s : Rational) : Rational :=
  let g1 := computeGcd r.numerator s.denominator
  let g2 := computeGcd r.denominator s.numerator
  ⟨(r.numerator.tdiv g1) * (s.numerator.tdiv g2),
   (r.denominator.tdiv g2) * (s.denominator.tdiv g1)⟩

/-- Rational::operator/=: throws std::invalid_argument when the divisor's
numerator is zero; otherwise cross-reduced division followed by a sign fix
of the denominator. -/
def div (r s : Rational) : Option Rational :=
  if s.numerator = 0 then none
  else
    let g1 := computeGcd r.numerator s.numerator
    let g2 := computeGcd r.denominator s.denominator
    let n := (r.numerator.tdiv g1) * (s.denominator.tdiv g2)
    let d := (r.denominator.tdiv g2) * (s.numerator.tdiv g1)
    some (if d < 0 then ⟨-n, -d⟩ else ⟨n, d⟩)

/-- The invariant the specification states for Rational: stored in lowest
terms with a strictly positive denominator. -/
def IsNormalized (r : Rational) : Prop :=
  Int.gcd r.numerator r.denominator = 1 ∧ 0 < r.denominator

instance (r : Rational) : Decidable r.IsNormalized :=
  inferInstanceAs (Decidable (_ ∧ _))

end Rational

/-- Plane over T = ℝ, V = Vector2, from Plane.hpp: a stored normal and a
stored signed distance from the origin. -/
@[ext] structure Plane where
  normal : Vector2
  origin : ℝ

/-- Plane's constructor from an orthogonal vector and a point on the plane:
the normal is stored normalized and the distance is the scalar projection
of the point onto the stored normal. -/
noncomputable def Plane.ofNormalPoint (normal point : Vector2) : Option Plane :=
  normal.getNormalization.bind
    (fun u => (point.getScalarProjection u).map (fun d => ⟨u, d⟩))

/-- Plane::getProjection: with d the scalar projection of the point onto the
stored normal, the source returns point - normal * d (the stored distance is
not subtracted from d; the source carries a TODO at this line). -/
noncomputable def Plane.getProjection (pl : Plane) (point : Vector2) : Option Vector2 :=
  (point.getScalarProjection pl.normal).map
    (fun d => point.sub (pl.normal.mulScalar d))

/-! Helper lemmas. -/

theorem Vector2.sumSqPosOfNotNull {v : Vector2} (h : ¬v.isNull) : 0 < v.x * v.x + v.y * v.y := by
  rcases not_and_or.mp h with hx | hy
  · nlinarith [mul_self_pos.mpr hx, mul_self_nonneg v.y]
  · nlinarith [mul_self_pos.mpr hy, mul_self_nonneg v.x]

theorem Vector3.sumSqPosOfNotNull3 {v : Vector3} (h : ¬v.isNull) :
    0 < v.x * v.x + v.y * v.y + v.z * v.z := by
  rcases not_and_or.mp h with hx | hyz
  · nlinarith [mul_self_pos.mpr hx, mul_self_nonneg v.y, mul_self_nonneg v.z]
  · rcases not_and_or.mp hyz with hy | hz
    · nlinarith [mul_self_pos.mpr hy, mul_self_nonneg v.x, mul_self_nonneg v.z]
    · nlinarith [mul_self_pos.mpr hz, mul_self_nonneg v.x, mul_self_nonneg v.y]

theorem Vector2.getLengthPosOfNotNull {v : Vector2} (h : ¬v.isNull) : 0 < v.getLength :=
  Real.sqrt_pos.mpr (Vector2.sumSqPosOfNotNull h)

theorem Vector3.getLengthPosOfNotNull3 {v : Vector3} (h : ¬v.isNull) : 0 < v.getLength :=
  Real.sqrt_pos.mpr (Vector3.sumSqPosOfNotNull3 h)

/-! Theorems for the claims about the vector classes. -/

/-- C1: the specification says getLength is the Euclidean norm, the square
root of the sum of squared components. The Vector2 and Vector3 variants
compute exactly that, but the generic Vector of Vector.hpp accumulates the
exclusive or of each component with 2 instead of its square, so at the
component list [3, 0] it returns the square root of 3 where the Euclidean
norm is 3. -/
theorem getLength_euclidean_except_generic_xor :
    (∀ v : Vector2, v.getLength = Real.sqrt (v.x * v.x + v.y * v.y)) ∧
    (∀ v : Vector3, v.getLength = Real.sqrt (v.x * v.x + v.y * v.y + v.z * v.z)) ∧
    GenVector.getLength [3, 0] = Real.sqrt 3 ∧
    GenVector.euclideanNorm [3, 0] = 3 ∧
    GenVector.getLength [3, 0] ≠ GenVector.euclideanNorm [3, 0] := by
  have h1 : GenVector.getLength [3, 0] = Real.sqrt 3 := by
    have : (List.foldl (fun len c => len + (c ^^^ 2)) (0 : ℕ) [3, 0]) = 3 := rfl
    unfold GenVector.getLength
    rw [this]
    norm_num
  have h2 : GenVector.euclideanNorm [3, 0] = 3 := by
    have : (List.foldl (fun len c => len + c * c) (0 : ℕ) [3, 0]) = 9 := rfl
    unfold GenVector.euclideanNorm
    rw [this]
    rw [show ((9 : ℕ) : ℝ) = 3 ^ 2 by norm_num, Real.sqrt_sq (by norm_num : (0:ℝ) ≤ 3)]
  refine ⟨fun v => rfl, fun v => rfl, h1, h2, ?_⟩
  rw [h1, h2]
  intro h
  have h3 : Real.sqrt 3 * Real.sqrt 3 = 3 := Real.mul_self_sqrt (by norm_num)
  rw [h] at h3
  norm_num at h3

/-- C2: the throwing scalar divisions (first Vector2 variant, Vector3's
asserted variant) and the rational division reject a zero divisor, but the
second Vector2 variant of Vector2.hpp (the one with the TODO DBZ comment)
performs the division unconditionally and returns normally even for a zero
divisor, so the claim that every variant rejects fails there. -/
theorem division_by_zero_not_rejected_in_every_variant :
    (∀ v : Vector2, v.divScalar 0 = none) ∧
    (∀ v : Vector3, v.divScalar 0 = none) ∧
    (∀ r : Rational, ∀ d : ℤ, r.div ⟨0, d⟩ = none) ∧
    Vector2.divScalarTodo ⟨1, 1⟩ 0 = some ⟨1 / 0, 1 / 0⟩ ∧
    Vector2.divScalarTodo ⟨1, 1⟩ 0 ≠ none := by
  refine ⟨fun v => if_pos rfl, fun v => if_pos rfl, fun r d => if_pos rfl, rfl, ?_⟩
  intro h
  exact Option.noConfusion h

/-- C4: the generic Bounds::intersect takes the per-axis minimum of the
upper limits and maximum of the lower limits on every axis; Bounds3's
intersect only does so on the X and Y axes and leaves the Z coordinates
unmodified, so intersecting the unit-and-a-half box with a Z-tighter box
leaves the upper Z limit at 1 instead of the claimed min 1 (1/2). -/
theorem intersect_min_max_but_bounds3_skips_z :
    (∀ (n : ℕ) (a b : Bounds n) (i : Fin n),
      (a.intersect b).upper i = min (a.upper i) (b.upper i) ∧
      (a.intersect b).lower i = max (a.lower i) (b.lower i)) ∧
    (Bounds3.intersect ⟨⟨1, 1, 1⟩, ⟨0, 0, 0⟩⟩ ⟨⟨1, 1, 1 / 2⟩, ⟨0, 0, 0⟩⟩).upper.z = 1 ∧
    min (1 : ℝ) (1 / 2) ≠ 1 := by
  refine ⟨fun n a b i => ⟨?_, ?_⟩, rfl, by norm_num⟩
  · show (if b.upper i < a.upper i then b.upper i else a.upper i) = _
    rw [min_def]
    split_ifs <;> linarith
  · show (if b.lower i > a.lower i then b.lower i else a.lower i) = _
    rw [max_def]
    split_ifs <;> linarith

/-- C5: the generic hasPointInside is the inclusive per-axis containment
test; but hasBoundsInside combines the two per-axis comparisons with a
logical and, so the bounds [0, 1] reports the strictly larger bounds [0, 2]
as contained although 2 exceeds the upper limit 1; and Bounds3's point
test ignores the Z axis, so the unit box reports the point (0, 0, 5)
inside although 5 exceeds the upper Z limit 1. -/
theorem containment_iff_fails_for_bounds_inside :
    (∀ (n : ℕ) (b : Bounds n) (p : VecN n),
      b.hasPointInside p ↔ ∀ i, b.lower i ≤ p i ∧ p i ≤ b.upper i) ∧
    (@Bounds.hasBoundsInside 1 ⟨fun _ => 1, fun _ => 0⟩ ⟨fun _ => 2, fun _ => 0⟩ ∧
      ¬((2 : ℝ) ≤ 1)) ∧
    (Bounds3.isInside ⟨⟨1, 1, 1⟩, ⟨0, 0, 0⟩⟩ ⟨0, 0, 5⟩ ∧ ¬((5 : ℝ) ≤ 1)) := by
  refine ⟨fun n b p => ?_, ⟨?_, by norm_num⟩, ⟨?_, by norm_num⟩⟩
  · unfold Bounds.hasPointInside
    constructor
    · intro h i
      have hi := h i
      push_neg at hi
      exact ⟨hi.2, hi.1⟩
    · intro h i
      push_neg
      exact ⟨(h i).2, (h i).1⟩
  · intro i hi
    exact lt_irrefl _ hi.2
  · refine ⟨by norm_num, by norm_num, by norm_num, by norm_num⟩

/-- C6: Plane::getProjection subtracts normal * (scalar projection) without
subtracting the stored distance. For the plane with unit normal (0, 1)
through the point (0, 2) (stored distance 2), the point (0, 2), which lies
on the plane, is mapped to (0, 0) instead of to itself as the claimed
formula point - normal * (projection - distance) would give. -/
theorem plane_projection_ignores_stored_distance :
    Plane.ofNormalPoint ⟨0, 1⟩ ⟨0, 2⟩ = some ⟨⟨0, 1⟩, 2⟩ ∧
    Plane.getProjection ⟨⟨0, 1⟩, 2⟩ ⟨0, 2⟩ = some ⟨0, 0⟩ ∧
    (Vector2.mk 0 0) ≠ ⟨0, 2⟩ := by
  have hnn : ¬(Vector2.mk 0 1).isNull := by
    simp [Vector2.isNull]
  have hlen : (Vector2.mk 0 1).getLength = 1 := by
    unfold Vector2.getLength
    rw [show ((0:ℝ) * 0 + 1 * 1) = 1 by norm_num, Real.sqrt_one]
  have hnorm : (Vector2.mk 0 1).getNormalization = some ⟨0, 1⟩ := by
    unfold Vector2.getNormalization
    rw [if_neg hnn, hlen]
    norm_num
  have hsp : (Vector2.mk 0 2).getScalarProjection ⟨0, 1⟩ = some 2 := by
    unfold Vector2.getScalarProjection
    rw [hnorm]
    simp [Vector2.dot]
  refine ⟨?_, ?_, ?_⟩
  · unfold Plane.ofNormalPoint
    rw [hnorm, Option.some_bind, hsp]
    rfl
  · unfold Plane.getProjection
    rw [hsp]
    simp only [Option.map_some]
    unfold Vector2.sub Vector2.mulScalar
    norm_num
  · intro h
    have := congrArg Vector2.y h
    norm_num at this

/-- C3: for the Vector2 and Vector3 variants, normalizing a non-null vector
yields a vector of length exactly 1 (hence within any epsilon of 1), and
the null vector is rejected. -/
theorem normalization_unit_length_or_rejects_null :
    ∀ (v : Vector2) (w : Vector3),
      (¬v.isNull → ∃ u, v.getNormalization = some u ∧ u.getLength = 1) ∧
      (v.isNull → v.getNormalization = none) ∧
      (¬w.isNull → ∃ u, w.getNormalization = some u ∧ u.getLength = 1) ∧
      (w.isNull → w.getNormalization = none) := by
  intro v w
  refine ⟨fun hv => ?_, fun hv => if_pos hv, fun hw => ?_, fun hw => if_pos hw⟩
  · refine ⟨⟨v.x / v.getLength, v.y / v.getLength⟩, if_neg hv, ?_⟩
    have hS : 0 < v.x * v.x + v.y * v.y := Vector2.sumSqPosOfNotNull hv
    set L := v.getLength with hLdef
    have hLL : L * L = v.x * v.x + v.y * v.y := by
      rw [hLdef]
      exact Real.mul_self_sqrt hS.le
    show Real.sqrt (v.x / L * (v.x / L) + v.y / L * (v.y / L)) = 1
    rw [div_mul_div_comm, div_mul_div_comm, div_add_div_same, hLL,
      div_self hS.ne', Real.sqrt_one]
  · refine ⟨⟨w.x / w.getLength, w.y / w.getLength, w.z / w.getLength⟩, if_neg hw, ?_⟩
    have hS : 0 < w.x * w.x + w.y * w.y + w.z * w.z := Vector3.sumSqPosOfNotNull3 hw
    set L := w.getLength with hLdef
    have hLL : L * L = w.x * w.x + w.y * w.y + w.z * w.z := by
      rw [hLdef]
      exact Real.mul_self_sqrt hS.le
    show Real.sqrt (w.x / L * (w.x / L) + w.y / L * (w.y / L) + w.z / L * (w.z / L)) = 1
    rw [div_mul_div_comm, div_mul_div_comm, div_mul_div_comm,
      div_add_div_same, div_add_div_same, hLL, div_self hS.ne', Real.sqrt_one]

/-- Witness for C3 at the concrete vectors (3, 4) and (0, 0, 0). -/
theorem normalization_unit_length_witness :
    ¬(Vector2.mk 3 4).isNull ∧
    (∃ u, (Vector2.mk 3 4).getNormalization = some u ∧ u.getLength = 1) ∧
    (Vector3.mk 0 0 0).isNull ∧ (Vector3.mk 0 0 0).getNormalization = none := by
  have h1 : ¬(Vector2.mk 3 4).isNull := by
    simp [Vector2.isNull]
  have h2 : (Vector3.mk 0 0 0).isNull := ⟨rfl, rfl, rfl⟩
  exact ⟨h1, (normalization_unit_length_or_rejects_null ⟨3, 4⟩ ⟨0, 0, 0⟩).1 h1, h2,
    (normalization_unit_length_or_rejects_null ⟨3, 4⟩ ⟨0, 0, 0⟩).2.2.2 h2⟩

/-- C8: projecting a onto a non-null b yields a scalar multiple k of b, and
the scalar projection is that k times the length of b. -/
theorem projection_parallel_and_scalar_consistent :
    ∀ a b : Vector2, ¬b.isNull →
      ∃ k : ℝ, a.getProjection b = some (b.mulScalar k) ∧
        a.getScalarProjection b = some (k * b.getLength) := by
  intro a b hb
  have hS : 0 < b.x * b.x + b.y * b.y := Vector2.sumSqPosOfNotNull hb
  have hL : 0 < b.getLength := Vector2.getLengthPosOfNotNull hb
  refine ⟨a.dot b / (b.getLength * b.getLength), ?_, ?_⟩
  · unfold Vector2.getProjection
    rw [if_neg hb]
    unfold Vector2.mulScalar
    simp only [Option.some.injEq, Vector2.mk.injEq]
    constructor <;> ring
  · unfold Vector2.getScalarProjection Vector2.getNormalization
    rw [if_neg hb]
    simp only [Option.map_some', Option.some.injEq]
    unfold Vector2.dot
    field_simp
    ring

/-- Witness for C8 at a = (1, 0), b = (0, 2). -/
theorem projection_parallel_witness :
    ¬(Vector2.mk 0 2).isNull ∧
    (∃ k : ℝ, (Vector2.mk 1 0).getProjection ⟨0, 2⟩ = some (Vector2.mulScalar ⟨0, 2⟩ k) ∧
      (Vector2.mk 1 0).getScalarProjection ⟨0, 2⟩ = some (k * (Vector2.mk 0 2).getLength)) := by
  have h : ¬(Vector2.mk 0 2).isNull := by
    simp [Vector2.isNull]
  exact ⟨h, projection_parallel_and_scalar_consistent ⟨1, 0⟩ ⟨0, 2⟩ h⟩

/-- C9: building bounds from two corner points is order-independent, for the
generic Bounds and for Bounds2. -/
theorem bounds_set_order_independent :
    (∀ (n : ℕ) (p1 p2 : VecN n), Bounds.set p1 p2 = Bounds.set p2 p1) ∧
    (∀ p1 p2 : Vector2, Bounds2.set p1 p2 = Bounds2.set p2 p1) := by
  constructor
  · intro n p1 p2
    refine Bounds.ext (funext fun i => ?_) (funext fun i => ?_)
    · show (if p1 i > p2 i then p1 i else p2 i) = (if p2 i > p1 i then p2 i else p1 i)
      split_ifs <;> linarith
    · show (if p1 i > p2 i then p2 i else p1 i) = (if p2 i > p1 i then p1 i else p2 i)
      split_ifs <;> linarith
  · intro p1 p2
    refine Bounds2.ext (Vector2.ext ?_ ?_) (Vector2.ext ?_ ?_)
    · show (if p1.x > p2.x then p1.x else p2.x) = (if p2.x > p1.x then p2.x else p1.x)
      split_ifs <;> linarith
    · show (if p1.y > p2.y then p1.y else p2.y) = (if p2.y > p1.y then p2.y else p1.y)
      split_ifs <;> linarith
    · show (if p1.x > p2.x then p2.x else p1.x) = (if p2.x > p1.x then p1.x else p2.x)
      split_ifs <;> linarith
    · show (if p1.y > p2.y then p2.y else p1.y) = (if p2.y > p1.y then p1.y else p2.y)
      split_ifs <;> linarith

/-- C10: bounds built from two equal corner points are empty (upper equals
lower on every axis, and emptiness only needs one axis with upper at most
lower), yet the corner point itself still passes the inclusive containment
test. -/
theorem bounds_from_equal_points_empty_yet_contains :
    ∀ (n : ℕ), 0 < n → ∀ p : VecN n,
      (Bounds.set p p).isEmpty ∧ (Bounds.set p p).hasPointInside p := by
  intro n hn p
  have hupper : ∀ i, (Bounds.set p p).upper i = p i := fun i => ite_self _
  have hlower : ∀ i, (Bounds.set p p).lower i = p i := fun i => ite_self _
  constructor
  · exact ⟨⟨0, hn⟩, le_of_eq (by rw [hupper, hlower])⟩
  · intro i
    rw [hupper i, hlower i]
    rintro (h | h) <;> exact lt_irrefl _ h

/-- Witness for C10 with n = 2 and the corner point (5, -2). -/
theorem bounds_from_equal_points_witness :
    0 < 2 ∧
    ((Bounds.set (![5, -2] : VecN 2) ![5, -2]).isEmpty ∧
      (Bounds.set (![5, -2] : VecN 2) ![5, -2]).hasPointInside ![5, -2]) :=
  ⟨by norm_num, bounds_from_equal_points_empty_yet_contains 2 (by norm_num) ![5, -2]⟩

/-! Number-theoretic helper lemmas for the Rational invariant. -/

theorem gcdLoop_eq_gcd (a b : ℕ) : gcdLoop a b = Nat.gcd a b := by
  induction b using Nat.strong_induction_on generalizing a with
  | _ b ih =>
    match a with
    | 0 => simp [gcdLoop]
    | Nat.succ a =>
      rw [gcdLoop]
      by_cases hb : b = 0
      · rw [dif_pos hb, hb, Nat.gcd_zero_right]
      · rw [dif_neg hb, ih ((a + 1) % b) (Nat.mod_lt _ (Nat.pos_of_ne_zero hb)),
          Nat.gcd_comm b ((a + 1) % b), ← Nat.gcd_rec b (a + 1), Nat.gcd_comm b (a + 1)]

theorem computeGcd_eq_gcd (a b : ℤ) : computeGcd a b = ↑(Int.gcd a b) := by
  unfold computeGcd
  rw [gcdLoop_eq_gcd]
  rfl

/-- Adding a multiple of m to the other argument leaves the gcd unchanged. -/
theorem int_gcd_add_mul (a m k : ℤ) : Int.gcd (a + m * k) m = Int.gcd a m := by
  apply Nat.dvd_antisymm
  · have h1 : (↑(Int.gcd (a + m * k) m) : ℤ) ∣ a := by
      have h2 := dvd_sub (Int.gcd_dvd_left : (↑(Int.gcd (a + m * k) m) : ℤ) ∣ a + m * k)
        ((Int.gcd_dvd_right : (↑(Int.gcd (a + m * k) m) : ℤ) ∣ m).mul_right k)
      simpa using h2
    exact Int.natCast_dvd_natCast.mp (Int.dvd_gcd h1 Int.gcd_dvd_right)
  · have h1 : (↑(Int.gcd a m) : ℤ) ∣ a + m * k :=
      dvd_add Int.gcd_dvd_left (Int.gcd_dvd_right.mul_right k)
    exact Int.natCast_dvd_natCast.mp (Int.dvd_gcd h1 Int.gcd_dvd_right)

theorem ediv_dvd_of_dvd {a g : ℤ} (h : g ∣ a) : a / g ∣ a :=
  ⟨g, (Int.ediv_mul_cancel h).symm⟩

theorem ediv_ne_zero_of_dvd {a g : ℤ} (ha : a ≠ 0) (h : g ∣ a) : a / g ≠ 0 := by
  intro h0
  apply ha
  rw [← Int.mul_ediv_cancel' h, h0, mul_zero]

/-- A pair of divisors of a coprime pair is coprime. -/
theorem coprime_of_dvd_of_gcd_eq_one {a b a2 b2 : ℤ} (h : Int.gcd a b = 1)
    (ha : a2 ∣ a) (hb : b2 ∣ b) : Int.gcd a2 b2 = 1 := by
  have h1 : Nat.Coprime a2.natAbs b.natAbs :=
    Nat.Coprime.coprime_dvd_left (Int.natAbs_dvd_natAbs.mpr ha) h
  exact Nat.Coprime.coprime_dvd_right (Int.natAbs_dvd_natAbs.mpr hb) h1

theorem gcd_mul_left_eq_one {x y z : ℤ} (h1 : Int.gcd x z = 1) (h2 : Int.gcd y z = 1) :
    Int.gcd (x * y) z = 1 := by
  rw [Int.gcd_def, Int.natAbs_mul]
  exact Nat.Coprime.mul h1 h2

theorem gcd_mul_mul_eq_one {x y z w : ℤ} (hxz : Int.gcd x z = 1) (hxw : Int.gcd x w = 1)
    (hyz : Int.gcd y z = 1) (hyw : Int.gcd y w = 1) : Int.gcd (x * y) (z * w) = 1 := by
  rw [Int.gcd_def, Int.natAbs_mul, Int.natAbs_mul]
  exact Nat.Coprime.mul (Nat.Coprime.mul_right hxz hxw) (Nat.Coprime.mul_right hyz hyw)

/-- Core of the reduced addition: with b, d positive denominators of two
fractions in lowest terms, g their gcd, t the mixed numerator and h the
final reducing gcd, the produced fraction is again in lowest terms with a
positive denominator (Knuth's reduced rational addition). -/
theorem add_core {a b c d g t h : ℤ} (hb : 0 < b) (hd : 0 < d)
    (hab : Int.gcd a b = 1) (hcd : Int.gcd c d = 1)
    (hg : g = ↑(Int.gcd b d)) (ht : t = a * (d / g) + (b / g) * c)
    (hh : h = ↑(Int.gcd t g)) :
    Int.gcd (t / h) ((b / g) * (d / h)) = 1 ∧ 0 < (b / g) * (d / h) := by
  subst hg
  subst ht
  subst hh
  have hgnat : 0 < Int.gcd b d := Int.gcd_pos_of_ne_zero_left d hb.ne'
  set G : ℤ := ↑(Int.gcd b d) with hGdef
  have hGpos : (0 : ℤ) < G := by
    rw [hGdef]
    exact_mod_cast hgnat
  have hGb : G ∣ b := by
    rw [hGdef]
    exact Int.gcd_dvd_left
  have hGd : G ∣ d := by
    rw [hGdef]
    exact Int.gcd_dvd_right
  have hbG : 0 < b / G := Int.ediv_pos_of_pos_of_dvd hb hGpos.le hGb
  have hbDvd : b / G ∣ b := ediv_dvd_of_dvd hGb
  have hdDvd : d / G ∣ d := ediv_dvd_of_dvd hGd
  have hbd1 : Int.gcd (b / G) (d / G) = 1 := by
    rw [hGdef]
    exact Int.gcd_div_gcd_div_gcd hgnat
  set t : ℤ := a * (d / G) + (b / G) * c with htdef
  set H : ℤ := ↑(Int.gcd t G) with hHdef
  have cp_tb : Int.gcd t (b / G) = 1 := by
    have h1 : Int.gcd t (b / G) = Int.gcd (a * (d / G)) (b / G) := by
      rw [htdef]
      exact int_gcd_add_mul (a * (d / G)) (b / G) c
    rw [h1]
    exact gcd_mul_left_eq_one (coprime_of_dvd_of_gcd_eq_one hab dvd_rfl hbDvd)
      (Int.gcd_comm (b / G) (d / G) ▸ hbd1)
  have cp_td : Int.gcd t (d / G) = 1 := by
    have h1 : Int.gcd t (d / G) = Int.gcd ((b / G) * c) (d / G) := by
      rw [htdef, show a * (d / G) + (b / G) * c = (b / G) * c + (d / G) * a by ring]
      exact int_gcd_add_mul ((b / G) * c) (d / G) a
    rw [h1]
    exact gcd_mul_left_eq_one hbd1 (coprime_of_dvd_of_gcd_eq_one hcd dvd_rfl hdDvd)
  have hd_eq : G * (d / G) = d := Int.mul_ediv_cancel' hGd
  have chain : Int.gcd t ((b / G) * d) = Int.gcd t G := by
    rw [Int.gcd_def t ((b / G) * d), Int.natAbs_mul,
      Nat.Coprime.gcd_mul_left_cancel_right d.natAbs (Nat.Coprime.symm cp_tb),
      show d.natAbs = G.natAbs * (d / G).natAbs by rw [← Int.natAbs_mul, hd_eq],
      Nat.Coprime.gcd_mul_right_cancel_right G.natAbs (Nat.Coprime.symm cp_td),
      Int.gcd_def t G]
  have hHnat : 0 < Int.gcd t G := Int.gcd_pos_of_ne_zero_right t hGpos.ne'
  have hHpos : (0 : ℤ) < H := by
    rw [hHdef]
    exact_mod_cast hHnat
  have hHG : H ∣ G := by
    rw [hHdef]
    exact Int.gcd_dvd_right
  have hHd : H ∣ d := hHG.trans hGd
  constructor
  · have hpos2 : 0 < Int.gcd t ((b / G) * d) := by
      rw [chain]
      exact hHnat
    have key := Int.gcd_div_gcd_div_gcd hpos2
    rw [chain, ← hHdef, Int.mul_ediv_assoc _ hHd] at key
    exact key
  · exact mul_pos hbG (Int.ediv_pos_of_pos_of_dvd hd hHpos.le hHd)

/-- The subtraction case reduces to the addition case at the negated
numerator. -/
theorem sub_core {a b c d g t h : ℤ} (hb : 0 < b) (hd : 0 < d)
    (hab : Int.gcd a b = 1) (hcd : Int.gcd c d = 1)
    (hg : g = ↑(Int.gcd b d)) (ht : t = a * (d / g) - (b / g) * c)
    (hh : h = ↑(Int.gcd t g)) :
    Int.gcd (t / h) ((b / g) * (d / h)) = 1 ∧ 0 < (b / g) * (d / h) := by
  refine @add_core a b (-c) d g t h hb hd hab ?_ hg ?_ hh
  · rw [Int.neg_gcd]
    exact hcd
  · rw [ht]
    ring

/-- Core of the cross-reduced multiplication: the two cross gcds fully
reduce the product of two fractions in lowest terms. -/
theorem mul_core {a b c d g1 g2 : ℤ} (hb : b ≠ 0) (hd : d ≠ 0)
    (hab : Int.gcd a b = 1) (hcd : Int.gcd c d = 1)
    (hg1 : g1 = ↑(Int.gcd a d)) (hg2 : g2 = ↑(Int.gcd b c)) :
    Int.gcd ((a / g1) * (c / g2)) ((b / g2) * (d / g1)) = 1 := by
  subst hg1
  subst hg2
  have h1nat : 0 < Int.gcd a d := Int.gcd_pos_of_ne_zero_right a hd
  have h2nat : 0 < Int.gcd b c := Int.gcd_pos_of_ne_zero_left c hb
  set G1 : ℤ := ↑(Int.gcd a d) with hG1
  set G2 : ℤ := ↑(Int.gcd b c) with hG2
  have hG1a : G1 ∣ a := by
    rw [hG1]
    exact Int.gcd_dvd_left
  have hG1d : G1 ∣ d := by
    rw [hG1]
    exact Int.gcd_dvd_right
  have hG2b : G2 ∣ b := by
    rw [hG2]
    exact Int.gcd_dvd_left
  have hG2c : G2 ∣ c := by
    rw [hG2]
    exact Int.gcd_dvd_right
  have cp2 : Int.gcd (a / G1) (d / G1) = 1 := by
    rw [hG1]
    exact Int.gcd_div_gcd_div_gcd h1nat
  have cp3 : Int.gcd (c / G2) (b / G2) = 1 := by
    rw [Int.gcd_comm, hG2]
    exact Int.gcd_div_gcd_div_gcd h2nat
  have cp1 : Int.gcd (a / G1) (b / G2) = 1 :=
    coprime_of_dvd_of_gcd_eq_one hab (ediv_dvd_of_dvd hG1a) (ediv_dvd_of_dvd hG2b)
  have cp4 : Int.gcd (c / G2) (d / G1) = 1 :=
    coprime_of_dvd_of_gcd_eq_one hcd (ediv_dvd_of_dvd hG2c) (ediv_dvd_of_dvd hG1d)
  exact gcd_mul_mul_eq_one cp1 cp2 cp3 cp4

/-- Rational::normalize produces a fraction in lowest terms with a positive
denominator whenever the stored denominator is not zero. -/
theorem normalize_core {n d : ℤ} (hd : 0 < d) :
    Rational.IsNormalized ⟨n.tdiv (computeGcd n d), d.tdiv (computeGcd n d)⟩ := by
  have hgnat : 0 < Int.gcd n d := Int.gcd_pos_of_ne_zero_right n hd.ne'
  have hgpos : (0 : ℤ) < ↑(Int.gcd n d) := by exact_mod_cast hgnat
  have hgn : (↑(Int.gcd n d) : ℤ) ∣ n := Int.gcd_dvd_left
  have hgd : (↑(Int.gcd n d) : ℤ) ∣ d := Int.gcd_dvd_right
  constructor
  · show Int.gcd (n.tdiv (computeGcd n d)) (d.tdiv (computeGcd n d)) = 1
    rw [computeGcd_eq_gcd, Int.tdiv_eq_ediv_of_dvd hgn, Int.tdiv_eq_ediv_of_dvd hgd]
    exact Int.gcd_div_gcd_div_gcd hgnat
  · show 0 < d.tdiv (computeGcd n d)
    rw [computeGcd_eq_gcd, Int.tdiv_eq_ediv_of_dvd hgd]
    exact Int.ediv_pos_of_pos_of_dvd hd hgpos.le hgd

theorem normalize_isNormalized {r : Rational} (h : r.denominator ≠ 0) :
    r.normalize.IsNormalized := by
  unfold Rational.normalize
  split_ifs with hneg
  · exact normalize_core (neg_pos.mpr hneg)
  · exact normalize_core (lt_of_le_of_ne (not_lt.mp hneg) (Ne.symm h))

theorem add_isNormalized {r s : Rational} (hr : r.IsNormalized) (hs : s.IsNormalized) :
    (r.add s).IsNormalized := by
  obtain ⟨hr1, hr2⟩ := hr
  obtain ⟨hs1, hs2⟩ := hs
  unfold Rational.add
  simp only [computeGcd_eq_gcd, Int.tdiv_eq_ediv_of_dvd Int.gcd_dvd_left,
    Int.tdiv_eq_ediv_of_dvd Int.gcd_dvd_right,
    Int.tdiv_eq_ediv_of_dvd (dvd_trans Int.gcd_dvd_right Int.gcd_dvd_right)]
  split_ifs with hg
  · have hg1 : Int.gcd r.denominator s.denominator = 1 := by exact_mod_cast hg
    constructor
    · have key := (@add_core r.numerator r.denominator s.numerator s.denominator
        _ _ _ hr2 hs2 hr1 hs1 rfl rfl rfl).1
      rw [hg1] at key
      simp only [Nat.cast_one, Int.ediv_one, Int.gcd_one] at key
      exact key
    · exact mul_pos hr2 hs2
  · exact @add_core r.numerator r.denominator s.numerator s.denominator
      _ _ _ hr2 hs2 hr1 hs1 rfl rfl rfl

theorem sub_isNormalized {r s : Rational} (hr : r.IsNormalized) (hs : s.IsNormalized) :
    (r.sub s).IsNormalized := by
  obtain ⟨hr1, hr2⟩ := hr
  obtain ⟨hs1, hs2⟩ := hs
  unfold Rational.sub
  simp only [computeGcd_eq_gcd, Int.tdiv_eq_ediv_of_dvd Int.gcd_dvd_left,
    Int.tdiv_eq_ediv_of_dvd Int.gcd_dvd_right,
    Int.tdiv_eq_ediv_of_dvd (dvd_trans Int.gcd_dvd_right Int.gcd_dvd_right)]
  split_ifs with hg
  · have hg1 : Int.gcd r.denominator s.denominator = 1 := by exact_mod_cast hg
    constructor
    · have key := (@sub_core r.numerator r.denominator s.numerator s.denominator
        _ _ _ hr2 hs2 hr1 hs1 rfl rfl rfl).1
      rw [hg1] at key
      simp only [Nat.cast_one, Int.ediv_one, Int.gcd_one] at key
      exact key
    · exact mul_pos hr2 hs2
  · exact @sub_core r.numerator r.denominator s.numerator s.denominator
      _ _ _ hr2 hs2 hr1 hs1 rfl rfl rfl

theorem mul_isNormalized {r s : Rational} (hr : r.IsNormalized) (hs : s.IsNormalized) :
    (r.mul s).IsNormalized := by
  obtain ⟨hr1, hr2⟩ := hr
  obtain ⟨hs1, hs2⟩ := hs
  unfold Rational.mul
  simp only [computeGcd_eq_gcd, Int.tdiv_eq_ediv_of_dvd Int.gcd_dvd_left,
    Int.tdiv_eq_ediv_of_dvd Int.gcd_dvd_right]
  constructor
  · exact @mul_core r.numerator r.denominator s.numerator s.denominator
      _ _ hr2.ne' hs2.ne' hr1 hs1 rfl rfl
  · have hG2pos : (0 : ℤ) < ↑(Int.gcd r.denominator s.numerator) := by
      exact_mod_cast Int.gcd_pos_of_ne_zero_left s.numerator hr2.ne'
    have hG1pos : (0 : ℤ) < ↑(Int.gcd r.numerator s.denominator) := by
      exact_mod_cast Int.gcd_pos_of_ne_zero_right r.numerator hs2.ne'
    exact mul_pos
      (Int.ediv_pos_of_pos_of_dvd hr2 hG2pos.le Int.gcd_dvd_left)
      (Int.ediv_pos_of_pos_of_dvd hs2 hG1pos.le Int.gcd_dvd_right)

theorem div_isNormalized {r s u : Rational} (hr : r.IsNormalized) (hs : s.IsNormalized)
    (h : r.div s = some u) : u.IsNormalized := by
  obtain ⟨hr1, hr2⟩ := hr
  obtain ⟨hs1, hs2⟩ := hs
  unfold Rational.div at h
  simp only [computeGcd_eq_gcd, Int.tdiv_eq_ediv_of_dvd Int.gcd_dvd_left,
    Int.tdiv_eq_ediv_of_dvd Int.gcd_dvd_right] at h
  by_cases h0 : s.numerator = 0
  · rw [if_pos h0] at h
    exact Option.noConfusion h
  · rw [if_neg h0] at h
    have hsd : Int.gcd s.denominator s.numerator = 1 := by
      rw [Int.gcd_comm]
      exact hs1
    have hgcd : Int.gcd
        ((r.numerator / ↑(Int.gcd r.numerator s.numerator))
          * (s.denominator / ↑(Int.gcd r.denominator s.denominator)))
        ((r.denominator / ↑(Int.gcd r.denominator s.denominator))
          * (s.numerator / ↑(Int.gcd r.numerator s.numerator))) = 1 :=
      @mul_core r.numerator r.denominator s.denominator s.numerator
        _ _ hr2.ne' h0 hr1 hsd rfl rfl
    have hG2pos : (0 : ℤ) < ↑(Int.gcd r.denominator s.denominator) := by
      exact_mod_cast Int.gcd_pos_of_ne_zero_left s.denominator hr2.ne'
    have hbpos : 0 < r.denominator / ↑(Int.gcd r.denominator s.denominator) :=
      Int.ediv_pos_of_pos_of_dvd hr2 hG2pos.le Int.gcd_dvd_left
    have hdne : s.numerator / ↑(Int.gcd r.numerator s.numerator) ≠ 0 :=
      ediv_ne_zero_of_dvd h0 Int.gcd_dvd_right
    have hddne : (r.denominator / ↑(Int.gcd r.denominator s.denominator))
        * (s.numerator / ↑(Int.gcd r.numerator s.numerator)) ≠ 0 :=
      mul_ne_zero hbpos.ne' hdne
    rw [Option.some.injEq] at h
    subst h
    split_ifs with hdneg
    · constructor
      · show Int.gcd (-_) (-_) = 1
        rw [Int.neg_gcd, Int.gcd_neg]
        exact hgcd
      · exact neg_pos.mpr hdneg
    · exact ⟨hgcd, lt_of_le_of_ne (not_lt.mp hdneg) (Ne.symm hddne)⟩

theorem ofFraction_isNormalized {n d : ℤ} {r : Rational}
    (h : Rational.ofFraction n d = some r) : r.IsNormalized := by
  unfold Rational.ofFraction at h
  by_cases h0 : d = 0
  · rw [if_pos h0] at h
    exact Option.noConfusion h
  · rw [if_neg h0] at h
    rw [Option.some.injEq] at h
    subst h
    exact normalize_isNormalized h0

theorem set_isNormalized {q : Rational} {n d : ℤ} {r : Rational}
    (h : Rational.set q n d = some r) : r.IsNormalized := by
  unfold Rational.set at h
  by_cases h0 : d = 0
  · rw [if_pos h0] at h
    exact Option.noConfusion h
  · rw [if_neg h0] at h
    rw [Option.some.injEq] at h
    subst h
    exact normalize_isNormalized h0

theorem setNumerator_isNormalized {r : Rational} (hr : r.IsNormalized) (n : ℤ) :
    (r.setNumerator n).IsNormalized :=
  normalize_isNormalized hr.2.ne'

theorem setDenominator_isNormalized {r : Rational} {d : ℤ} {u : Rational}
    (h : r.setDenominator d = some u) : u.IsNormalized := by
  unfold Rational.setDenominator at h
  by_cases h0 : d = 0
  · rw [if_pos h0] at h
    exact Option.noConfusion h
  · rw [if_neg h0] at h
    rw [Option.some.injEq] at h
    subst h
    exact normalize_isNormalized h0

/-- C7: every Rational produced through the public interface, by the
normalizing constructor and setters or by the four arithmetic operators
(which do not call normalize), is stored in lowest terms with a strictly
positive denominator. -/
theorem rational_interface_preserves_normalization :
    (∀ (n d : ℤ) (r : Rational), Rational.ofFraction n d = some r → r.IsNormalized) ∧
    (∀ (q : Rational) (n d : ℤ) (r : Rational), q.set n d = some r → r.IsNormalized) ∧
    (∀ (r : Rational) (n : ℤ), r.IsNormalized → (r.setNumerator n).IsNormalized) ∧
    (∀ (r : Rational) (d : ℤ) (u : Rational), r.setDenominator d = some u →
      u.IsNormalized) ∧
    (∀ r s : Rational, r.IsNormalized → s.IsNormalized → (r.add s).IsNormalized) ∧
    (∀ r s : Rational, r.IsNormalized → s.IsNormalized → (r.sub s).IsNormalized) ∧
    (∀ r s : Rational, r.IsNormalized → s.IsNormalized → (r.mul s).IsNormalized) ∧
    (∀ r s u : Rational, r.IsNormalized → s.IsNormalized → r.div s = some u →
      u.IsNormalized) :=
  ⟨fun _ _ _ h => ofFraction_isNormalized h,
   fun _ _ _ _ h => set_isNormalized h,
   fun _ n hr => setNumerator_isNormalized hr n,
   fun _ _ _ h => setDenominator_isNormalized h,
   fun _ _ hr hs => add_isNormalized hr hs,
   fun _ _ hr hs => sub_isNormalized hr hs,
   fun _ _ hr hs => mul_isNormalized hr hs,
   fun _ _ _ hr hs h => div_isNormalized hr hs h⟩

/-- Witness for C7 at the concrete rationals of the unit test: 4/3 and 3/4,
their sum 25/12 and their quotient 16/9. -/
theorem rational_normalization_witness :
    Rational.IsNormalized ⟨4, 3⟩ ∧ Rational.IsNormalized ⟨3, 4⟩ ∧
    Rational.ofFraction 4 (-3) = some ⟨-4, 3⟩ ∧
    Rational.IsNormalized (Rational.add ⟨4, 3⟩ ⟨3, 4⟩) ∧
    Rational.div ⟨4, 3⟩ ⟨3, 4⟩ = some ⟨16, 9⟩ ∧
    Rational.IsNormalized ⟨16, 9⟩ :=
  ⟨by decide, by decide,
   by simp only [Rational.ofFraction, Rational.normalize, computeGcd_eq_gcd]; decide,
   rational_interface_preserves_normalization.2.2.2.2.1 ⟨4, 3⟩ ⟨3, 4⟩
     (by decide) (by decide),
   by simp only [Rational.div, computeGcd_eq_gcd]; decide,
   rational_interface_preserves_normalization.2.2.2.2.2.2.2 ⟨4, 3⟩ ⟨3, 4⟩ ⟨16, 9⟩
     (by decide) (by decide)
     (by simp only [Rational.div, computeGcd_eq_gcd]; decide)⟩

end Mw
